import Mathlib

/-!
Verification development for the InsightCord Discord analytics bot.
Shallow embedding of the analytics aggregation and scoring engine:
toxicity smoothing (ai_analysis.py), engagement scoring and streaks
(user_engagement.py), min-max normalization and tiers (rank_system.py),
trend deltas (user_profile.py), and the toxicity alert engine
(admin_commands.py).  Machine floats are modelled as exact rationals,
calendar days and timestamps as integers (timestamps in minutes for the
alert cooldown), and database tables as lists or key-indexed partial maps.
-/

namespace InsightCord

/-! Section: Toxicity fusion (ai_analysis.analyze_and_update, lines 312-318) -/

/-- Embeds the toxicity update step of `analyze_and_update`:
`delta = tox - prev_tox`; if `delta > 0` the stored level becomes
`min(1.0, prev_tox + delta * 1.8)`, otherwise `max(0.0, prev_tox + delta * 0.3)`. -/
def update_toxicity (prev_tox tox : ℚ) : ℚ :=
  let delta := tox - prev_tox
  if 0 < delta then min 1 (prev_tox + delta * 1.8)
  else max 0 (prev_tox + delta * 0.3)

/-- The fusion rule as the specification words it: amplify increases by 1.8,
dampen decreases by 0.3, clamped to [0, 1]. -/
def spec_toxicity_fusion (previous new : ℚ) : ℚ :=
  let delta := new - previous
  if 0 < delta then min 1 (previous + delta * 1.8)
  else max 0 (previous + delta * 0.3)

/-! Section: Engagement score (user_engagement._engagement_score, lines 73-89) -/

/-- Embeds `_engagement_score(messages, reactions_made, reactions_received,
active_days, streak)`: `messages*0.5 + reactions_received*1.0 +
reactions_made*0.2 + active_days*3.0 + streak*2.0`. -/
def engagement_score (messages reactions_made reactions_received active_days streak : ℕ) : ℚ :=
  (messages : ℚ) * 0.5
    + (reactions_received : ℚ) * 1.0
    + (reactions_made : ℚ) * 0.2
    + (active_days : ℚ) * 3.0
    + (streak : ℚ) * 2.0

/-- The engagement formula as the specification words it:
`0.5*messages + 1.0*reactions_received + 0.2*reactions_made +
3.0*active_days + 2.0*streak_days`. -/
def spec_engagement_score (messages reactions_received reactions_made active_days streak_days : ℕ) : ℚ :=
  0.5 * (messages : ℚ) + 1.0 * (reactions_received : ℚ) + 0.2 * (reactions_made : ℚ)
    + 3.0 * (active_days : ℚ) + 2.0 * (streak_days : ℚ)

/-! Section: 7-day trend delta (user_profile.get_user_snapshot, lines 197-205) -/

/-- Embeds the `delta7` computation of `get_user_snapshot`: window sums are
nonnegative integers; both windows zero gives 0.0, only the previous window
zero gives 100.0, otherwise `(sum_curr - sum_prev) * 100.0 / max(1, sum_prev)`. -/
def delta7 (sum_curr sum_prev : ℕ) : ℚ :=
  if sum_curr = 0 ∧ sum_prev = 0 then 0
  else if sum_prev = 0 then 100
  else ((sum_curr : ℚ) - (sum_prev : ℚ)) * 100 / ((max 1 sum_prev : ℕ) : ℚ)

/-- The trend percentage as the specification words it:
`(curr7 - prev7) / prev7 * 100`, with 0 when both windows are zero and 100
when only the previous window is zero. -/
def spec_trend (curr7 prev7 : ℕ) : ℚ :=
  if curr7 = 0 ∧ prev7 = 0 then 0
  else if prev7 = 0 then 100
  else ((curr7 : ℚ) - (prev7 : ℚ)) / (prev7 : ℚ) * 100

end InsightCord

namespace InsightCord

/-! Section: Daily counters and streaks (user_engagement.py, lines 35-64)

A daily-counter row is a pair `(day, count)` with `day` an integer calendar
day index (consecutive integers are consecutive calendar days) and `count`
the number of messages recorded that day. -/

/-- Embeds the query filter of `_compute_active_days_and_streak`: rows with
`start_month <= day <= today` and `count > 0`. -/
def month_rows (rows : List (ℤ × ℕ)) (start_month today : ℤ) : List (ℤ × ℕ) :=
  rows.filter fun r => decide (start_month ≤ r.1) && decide (r.1 ≤ today) && decide (0 < r.2)

/-- Fuelled version of the streak while-loop of
`_compute_active_days_and_streak`: walk backwards from `d` while the day is
in the set, counting steps.  Each successful iteration removes the visited
day (the walk never revisits a day, so erasing is behaviour-preserving),
hence fuel equal to the list length is never exhausted early. -/
def streakFuel : ℕ → List ℤ → ℤ → ℕ
  | 0, _, _ => 0
  | n + 1, days, d => if d ∈ days then streakFuel n (days.erase d) (d - 1) + 1 else 0

/-- The streak loop: consecutive days ending at `d` that belong to `days`. -/
def streak_loop (days : List ℤ) (d : ℤ) : ℕ :=
  streakFuel days.length days d

/-- Embeds `_compute_active_days_and_streak`: `active_days` is the number of
selected rows, the streak walks backwards from `today` through the set of
selected days. -/
def compute_active_days_and_streak (rows : List (ℤ × ℕ)) (start_month today : ℤ) : ℕ × ℕ :=
  let sel := month_rows rows start_month today
  (sel.length, streak_loop (sel.map Prod.fst) today)

/-- A day is active in the store when some row records a positive count for it. -/
def day_active (rows : List (ℤ × ℕ)) (d : ℤ) : Prop :=
  ∃ c, (d, c) ∈ rows ∧ 0 < c

instance (rows : List (ℤ × ℕ)) (d : ℤ) : Decidable (day_active rows d) := by
  unfold day_active
  exact decidable_of_iff (∃ r ∈ rows, r.1 = d ∧ 0 < r.2)
    ⟨fun ⟨r, hr, h1, h2⟩ => ⟨r.2, by simpa [← h1] using hr, h2⟩,
     fun ⟨c, hc, h2⟩ => ⟨(d, c), hc, rfl, h2⟩⟩

/-! Section: Engagement store (user_engagement.process_message_engagement) -/

/-- One row of the `user_activity` table, as read by `_safe_activity`. -/
structure UserActivityRec where
  message_count : ℕ
  reaction_count : ℕ
  received_reactions : ℕ
deriving DecidableEq

/-- Embeds `_safe_activity`: `(messages, reaction_count, received_reactions)`
with zeros when the row is absent. -/
def safe_activity (ua : Option UserActivityRec) : ℕ × ℕ × ℕ :=
  match ua with
  | none => (0, 0, 0)
  | some u => (u.message_count, u.reaction_count, u.received_reactions)

/-- One row of the `user_engagement` table (guild fixed throughout). -/
structure EngRec where
  mentions_made : ℕ
  mentions_received : ℕ
  threads_created : ℕ
  invitations_sent : ℕ
  active_days_in_month : ℕ
  streak_days : ℕ
  engagement_score : ℚ
  last_update : ℤ
deriving DecidableEq

/-- The `user_engagement` table for one guild, keyed by user id. -/
def EngStore : Type := ℤ → Option EngRec

/-- Embeds the author upsert of `process_message_engagement`: on insert the
new row carries the computed derived metrics and `mentions_made = inc_made`;
on conflict `mentions_made` is incremented and `active_days_in_month`,
`streak_days`, `engagement_score`, `last_update` are overwritten. -/
def upsert_author (st : EngStore) (author : ℤ) (inc_made active_days streak : ℕ)
    (score : ℚ) (now : ℤ) : EngStore :=
  fun k =>
    if k = author then
      match st author with
      | none => some ⟨inc_made, 0, 0, 0, active_days, streak, score, now⟩
      | some e => some { e with
          mentions_made := e.mentions_made + inc_made,
          active_days_in_month := active_days,
          streak_days := streak,
          engagement_score := score,
          last_update := now }
    else st k

/-- Embeds the per-mention upsert of `process_message_engagement`: on insert
a row with `mentions_received = 1` and table defaults elsewhere; on conflict
only `mentions_received` is incremented and `last_update` refreshed. -/
def upsert_mentioned (st : EngStore) (mid : ℤ) (now : ℤ) : EngStore :=
  fun k =>
    if k = mid then
      match st mid with
      | none => some ⟨0, 1, 0, 0, 0, 0, 0, now⟩
      | some e => some { e with
          mentions_received := e.mentions_received + 1,
          last_update := now }
    else st k

/-- Embeds `process_message_engagement`: read the author activity row,
derive active days and streak from the daily counters, recompute the
engagement score from scratch, upsert the author row, then upsert each
mentioned user. -/
def process_message_engagement (st : EngStore) (ua : Option UserActivityRec)
    (rows : List (ℤ × ℕ)) (author : ℤ) (mentioned : List ℤ)
    (start_month today now : ℤ) : EngStore :=
  let acts := safe_activity ua
  let derived := compute_active_days_and_streak rows start_month today
  let score := engagement_score acts.1 acts.2.1 acts.2.2 derived.1 derived.2
  let st1 := upsert_author st author mentioned.length derived.1 derived.2 score now
  mentioned.foldl (fun s mid => upsert_mentioned s mid now) st1

end InsightCord

namespace InsightCord

/-! Section: Streak loop lemmas -/

theorem streak_loop_of_not_mem {days : List ℤ} {d : ℤ} (h : d ∉ days) :
    streak_loop days d = 0 := by
  unfold streak_loop
  cases days with
  | nil => rfl
  | cons a t => simp [streakFuel, h]

theorem streak_loop_erase_unfold {days : List ℤ} {d : ℤ} (h : d ∈ days) :
    streak_loop days d = streak_loop (days.erase d) (d - 1) + 1 := by
  unfold streak_loop
  obtain ⟨n, hn⟩ : ∃ n, days.length = n + 1 := by
    cases days with
    | nil => simp at h
    | cons a t => exact ⟨t.length, rfl⟩
  rw [hn]
  simp only [streakFuel, h, if_true]
  have hlen : (days.erase d).length = n := by
    rw [List.length_erase_of_mem h, hn]
    omega
  rw [hlen]

theorem streak_loop_erase_gt :
    ∀ (n : ℕ) (days : List ℤ) (a d : ℤ), days.length ≤ n → d < a →
      streak_loop (days.erase a) d = streak_loop days d := by
  intro n
  induction n with
  | zero =>
    intro days a d hlen _
    have : days = [] := List.eq_nil_of_length_eq_zero (Nat.le_zero.mp hlen)
    subst this
    rfl
  | succ n ih =>
    intro days a d hlen hda
    by_cases hd : d ∈ days
    · have hda2 : d ≠ a := ne_of_lt hda
      have hd2 : d ∈ days.erase a := (List.mem_erase_of_ne hda2).mpr hd
      rw [streak_loop_erase_unfold hd2, streak_loop_erase_unfold hd,
        List.erase_comm]
      congr 1
      have h1 := List.length_erase_of_mem hd
      exact ih (days.erase d) a (d - 1) (by omega) (by omega)
    · have hd2 : d ∉ days.erase a := fun hmem => hd (List.mem_of_mem_erase hmem)
      rw [streak_loop_of_not_mem hd, streak_loop_of_not_mem hd2]

theorem streak_loop_of_mem {days : List ℤ} {d : ℤ} (h : d ∈ days) :
    streak_loop days d = streak_loop days (d - 1) + 1 := by
  rw [streak_loop_erase_unfold h]
  congr 1
  exact streak_loop_erase_gt days.length days d (d - 1) le_rfl (by omega)

theorem streak_loop_mem_of_lt :
    ∀ (i : ℕ) (days : List ℤ) (d : ℤ), i < streak_loop days d → (d - i) ∈ days := by
  intro i
  induction i with
  | zero =>
    intro days d h
    by_contra hd
    norm_num at hd
    rw [streak_loop_of_not_mem hd] at h
    omega
  | succ i ih =>
    intro days d h
    have hd : d ∈ days := by
      by_contra hd
      rw [streak_loop_of_not_mem hd] at h
      omega
    rw [streak_loop_of_mem hd] at h
    have := ih days (d - 1) (by omega)
    have harith : d - 1 - (i : ℤ) = d - ((i : ℕ) + 1 : ℕ) := by
      push_cast
      ring
    rwa [harith] at this

theorem streak_loop_end_not_mem :
    ∀ (k : ℕ) (days : List ℤ) (d : ℤ), streak_loop days d = k → (d - k) ∉ days := by
  intro k
  induction k with
  | zero =>
    intro days d h hd
    norm_num at hd
    rw [streak_loop_of_mem hd] at h
    omega
  | succ k ih =>
    intro days d h
    have hd : d ∈ days := by
      by_contra hd
      rw [streak_loop_of_not_mem hd] at h
      omega
    rw [streak_loop_of_mem hd] at h
    have := ih days (d - 1) (by omega)
    have harith : d - 1 - (k : ℤ) = d - ((k : ℕ) + 1 : ℕ) := by
      push_cast
      ring
    rwa [harith] at this

/-- A day passes the month filter of `_compute_active_days_and_streak`:
active in the store and lying between the start of the current month and
today. -/
def month_day_active (rows : List (ℤ × ℕ)) (start_month today d : ℤ) : Prop :=
  day_active rows d ∧ start_month ≤ d ∧ d ≤ today

instance (rows : List (ℤ × ℕ)) (sm td d : ℤ) :
    Decidable (month_day_active rows sm td d) := by
  unfold month_day_active
  infer_instance

theorem mem_month_days {rows : List (ℤ × ℕ)} {sm td d : ℤ} :
    d ∈ (month_rows rows sm td).map Prod.fst ↔ month_day_active rows sm td d := by
  simp only [month_rows, month_day_active, day_active, List.mem_map, List.mem_filter,
    Bool.and_eq_true, decide_eq_true_eq]
  constructor
  · rintro ⟨⟨d1, c⟩, ⟨hmem, ⟨h1, h2⟩, h3⟩, rfl⟩
    exact ⟨⟨c, hmem, h3⟩, h1, h2⟩
  · rintro ⟨⟨c, hmem, hc⟩, h1, h2⟩
    exact ⟨(d, c), ⟨hmem, ⟨h1, h2⟩, hc⟩, rfl⟩

/-! Section: Mention-upsert fold lemmas -/

theorem foldl_upsert_mentioned_not_mem :
    ∀ (l : List ℤ) (s : EngStore) (now k : ℤ), k ∉ l →
      (l.foldl (fun a m => upsert_mentioned a m now) s) k = s k := by
  intro l
  induction l with
  | nil => intro s now k _; rfl
  | cons a t ih =>
    intro s now k hk
    have hka : k ≠ a := fun h => hk (h ▸ List.mem_cons_self a t)
    have hkt : k ∉ t := fun h => hk (List.mem_cons_of_mem a h)
    simp only [List.foldl_cons]
    rw [ih _ now k hkt]
    simp [upsert_mentioned, hka]

theorem foldl_upsert_mentioned_count_one :
    ∀ (l : List ℤ) (s : EngStore) (now k : ℤ) (e : EngRec), l.count k = 1 → s k = some e →
      (l.foldl (fun a m => upsert_mentioned a m now) s) k
        = some { e with mentions_received := e.mentions_received + 1, last_update := now } := by
  intro l
  induction l with
  | nil => intro s now k e hc _; simp at hc
  | cons a t ih =>
    intro s now k e hc he
    simp only [List.foldl_cons]
    by_cases hak : a = k
    · subst hak
      have hct : t.count a = 0 := by
        simp [List.count_cons] at hc
        omega
      have hnt : a ∉ t := by
        rwa [List.count_eq_zero] at hct
      rw [foldl_upsert_mentioned_not_mem t _ now a hnt]
      simp [upsert_mentioned, he]
    · have hct : t.count k = 1 := by
        simpa [List.count_cons, Ne.symm hak] using hc
      have hs2 : (upsert_mentioned s a now) k = some e := by
        simp [upsert_mentioned, Ne.symm hak, he]
      exact ih _ now k e hct hs2

theorem foldl_upsert_mentioned_score :
    ∀ (l : List ℤ) (s : EngStore) (now k : ℤ) (e : EngRec), s k = some e →
      ∃ e2, (l.foldl (fun a m => upsert_mentioned a m now) s) k = some e2
        ∧ e2.engagement_score = e.engagement_score := by
  intro l
  induction l with
  | nil => intro s now k e he; exact ⟨e, he, rfl⟩
  | cons a t ih =>
    intro s now k e he
    simp only [List.foldl_cons]
    by_cases hak : a = k
    · subst hak
      exact ih _ now a { e with mentions_received := e.mentions_received + 1, last_update := now }
        (by simp [upsert_mentioned, he])
    · exact ih _ now k e (by simp [upsert_mentioned, Ne.symm hak, he])

end InsightCord

namespace InsightCord

/-- Claim C1: Toxicity fusion in `analyze_and_update` is asymmetric smoothing:
the stored level follows the spec rule `min(1, prev + delta*1.8)` for
increases and `max(0, prev + delta*0.3)` for decreases, for all rational
inputs; in particular previous 0.2 with new 0.9 yields 1.0, and previous
0.8 with new 0.1 yields 0.59. -/
theorem update_toxicity_matches_spec :
    (∀ prev_tox tox : ℚ, update_toxicity prev_tox tox = spec_toxicity_fusion prev_tox tox)
      ∧ update_toxicity 0.2 0.9 = 1
      ∧ update_toxicity 0.8 0.1 = 0.59 := by
  refine ⟨fun prev_tox tox => rfl, ?_, ?_⟩ <;> norm_num [update_toxicity]

/-- Claim C7 (formula part): the code trend delta agrees with the specification
formula `(curr7 - prev7)/prev7 * 100` with its two special cases, for all
nonnegative window sums, and the three worked examples hold. -/
theorem delta7_matches_spec :
    (∀ curr7 prev7 : ℕ, delta7 curr7 prev7 = spec_trend curr7 prev7)
      ∧ delta7 0 0 = 0 ∧ delta7 5 0 = 100 ∧ delta7 5 10 = -50 := by
  refine ⟨?_, by norm_num [delta7], by norm_num [delta7], by norm_num [delta7]⟩
  intro c p
  unfold delta7 spec_trend
  rcases Nat.eq_zero_or_pos p with hp | hp
  · subst hp; simp
  · have h1 : max 1 p = p := Nat.max_eq_right hp
    have hpq : (p : ℚ) ≠ 0 := by positivity
    have hnot : ¬ (c = 0 ∧ p = 0) := by omega
    simp only [Nat.pos_iff_ne_zero.mp hp, and_false, if_false, h1, div_mul_eq_mul_div,
      mul_comm]

/-- Claim C3 counterexample: with the daily-counter history holding count 1 on
days 99 and 100, today being day 100 and day 100 also the first day of the
current month, the code stores a streak of 1, while the count of consecutive
calendar days ending today with daily count > 0 is 2 (days 99 and 100): the
stored streak does not include the part of the run that lies before the
start of the current month. -/
theorem streak_clipped_counterexample :
    (compute_active_days_and_streak [((99 : ℤ), (1 : ℕ)), (100, 1)] 100 100).2 = 1
      ∧ (∀ i : ℕ, i < 2 → day_active [((99 : ℤ), (1 : ℕ)), (100, 1)] (100 - i))
      ∧ ¬ day_active [((99 : ℤ), (1 : ℕ)), (100, 1)] (100 - 2)
      ∧ (1 : ℕ) ≠ 2 := by
  refine ⟨by decide, by decide, by decide, by decide⟩

/-- Claim C3 (amended): the streak stored by `process_message_engagement` equals
the count of consecutive calendar days ending today with daily count > 0
**restricted to days on or after the first day of the current month**: every
day of the counted run passes the month filter, and the day right below the
run fails it (inactive, or before the month start). -/
theorem streak_days_characterization (rows : List (ℤ × ℕ)) (sm td : ℤ) :
    (∀ i : ℕ, i < (compute_active_days_and_streak rows sm td).2 →
        month_day_active rows sm td (td - i))
      ∧ ¬ month_day_active rows sm td
          (td - ((compute_active_days_and_streak rows sm td).2 : ℤ)) := by
  have hunf : (compute_active_days_and_streak rows sm td).2
      = streak_loop ((month_rows rows sm td).map Prod.fst) td := rfl
  constructor
  · intro i hi
    rw [hunf] at hi
    have := streak_loop_mem_of_lt i ((month_rows rows sm td).map Prod.fst) td hi
    exact mem_month_days.mp this
  · rw [hunf]
    intro hmem
    exact streak_loop_end_not_mem (streak_loop ((month_rows rows sm td).map Prod.fst) td)
      ((month_rows rows sm td).map Prod.fst) td rfl (mem_month_days.mpr hmem)

/-- Claim C3 witness: the first day of the streak run counted on the concrete
history of the counterexample indeed passes the month filter. -/
theorem streak_days_characterization_witness :
    month_day_active [((99 : ℤ), (1 : ℕ)), (100, 1)] 100 100 (100 - ((0 : ℕ) : ℤ)) :=
  (streak_days_characterization [((99 : ℤ), (1 : ℕ)), (100, 1)] 100 100).1 0 (by decide)

/-- Claim C5: the engagement score written for the author by
`process_message_engagement` is recomputed from scratch on every call from
the activity row and the daily counters (it does not depend on the stored
score), the code formula coincides with the specification formula
`0.5*messages + 1.0*reactions_received + 0.2*reactions_made +
3.0*active_days + 2.0*streak_days` for all nonnegative integer inputs, and
messages=10, reactions_received=5, reactions_made=2, active_days=3,
streak=2 gives exactly 23.4. -/
theorem engagement_score_recomputed :
    (∀ (st : EngStore) (ua : Option UserActivityRec) (rows : List (ℤ × ℕ))
        (author : ℤ) (mentioned : List ℤ) (sm td now : ℤ),
      ∃ e, process_message_engagement st ua rows author mentioned sm td now author = some e
        ∧ e.engagement_score
            = engagement_score (safe_activity ua).1 (safe_activity ua).2.1
                (safe_activity ua).2.2 (compute_active_days_and_streak rows sm td).1
                (compute_active_days_and_streak rows sm td).2)
      ∧ (∀ messages reactions_made reactions_received active_days streak : ℕ,
          engagement_score messages reactions_made reactions_received active_days streak
            = spec_engagement_score messages reactions_received reactions_made
                active_days streak)
      ∧ engagement_score 10 2 5 3 2 = 23.4 := by
  refine ⟨?_, ?_, by norm_num [engagement_score]⟩
  · intro st ua rows author mentioned sm td now
    set score := engagement_score (safe_activity ua).1 (safe_activity ua).2.1
      (safe_activity ua).2.2 (compute_active_days_and_streak rows sm td).1
      (compute_active_days_and_streak rows sm td).2 with hscore
    have hauthor : ∃ e0, upsert_author st author mentioned.length
        (compute_active_days_and_streak rows sm td).1
        (compute_active_days_and_streak rows sm td).2 score now author = some e0
        ∧ e0.engagement_score = score := by
      unfold upsert_author
      simp only [if_pos rfl]
      cases st author with
      | none => exact ⟨_, rfl, rfl⟩
      | some e => exact ⟨_, rfl, rfl⟩
    obtain ⟨e0, he0, hs0⟩ := hauthor
    obtain ⟨e2, he2, hs2⟩ := foldl_upsert_mentioned_score mentioned _ now author e0 he0
    exact ⟨e2, he2, by rw [hs2, hs0]⟩
  · intro m rm rr ad s
    unfold engagement_score spec_engagement_score
    ring

/-- Claim C9: for a mentioned user distinct from the author and mentioned exactly
once, `process_message_engagement` changes only that user's
`mentions_received` (incremented by 1) and `last_update`; their
`engagement_score`, `streak_days`, `active_days_in_month` and every other
engagement field are untouched — the engagement recompute targets only the
author. -/
theorem process_mentioned_frame (st : EngStore) (ua : Option UserActivityRec)
    (rows : List (ℤ × ℕ)) (author : ℤ) (mentioned : List ℤ) (sm td now : ℤ)
    (mid : ℤ) (e : EngRec) (hma : mid ≠ author) (hcount : mentioned.count mid = 1)
    (he : st mid = some e) :
    process_message_engagement st ua rows author mentioned sm td now mid
      = some { e with mentions_received := e.mentions_received + 1, last_update := now } := by
  unfold process_message_engagement
  have hst1 : upsert_author st author mentioned.length
      (compute_active_days_and_streak rows sm td).1
      (compute_active_days_and_streak rows sm td).2
      (engagement_score (safe_activity ua).1 (safe_activity ua).2.1 (safe_activity ua).2.2
        (compute_active_days_and_streak rows sm td).1
        (compute_active_days_and_streak rows sm td).2) now mid = some e := by
    unfold upsert_author
    simp [hma, he]
  exact foldl_upsert_mentioned_count_one mentioned _ now mid e hcount hst1

/-! Section: Min-max normalization (rank_system._minmax_norm, lines 44-52) -/

/-- Embeds `_minmax_norm(values, x)`: empty population gives 0.0; when
`vmax <= vmin` (all values identical) gives 50.0; otherwise
`(x - vmin) * 100 / (vmax - vmin)` clamped to [0, 100]. -/
def minmax_norm (values : List ℚ) (x : ℚ) : ℚ :=
  match values with
  | [] => 0
  | v :: vs =>
    let vmin := vs.foldl min v
    let vmax := vs.foldl max v
    if vmax ≤ vmin then 50
    else max 0 (min 100 ((x - vmin) * 100 / (vmax - vmin)))

theorem foldl_min_mem : ∀ (vs : List ℚ) (v : ℚ), vs.foldl min v ∈ v :: vs := by
  intro vs
  induction vs with
  | nil => intro v; simp
  | cons a t ih =>
    intro v
    rw [List.foldl_cons]
    rcases List.mem_cons.mp (ih (min v a)) with h1 | h1
    · rcases min_choice v a with hm | hm
      · rw [h1, hm]; exact List.mem_cons_self _ _
      · rw [h1, hm]; exact List.mem_cons_of_mem _ (List.mem_cons_self _ _)
    · exact List.mem_cons_of_mem _ (List.mem_cons_of_mem _ h1)

theorem foldl_min_le : ∀ (vs : List ℚ) (v y : ℚ), y ∈ v :: vs → vs.foldl min v ≤ y := by
  intro vs
  induction vs with
  | nil =>
    intro v y hy
    simp at hy
    simp [hy]
  | cons a t ih =>
    intro v y hy
    rw [List.foldl_cons]
    rcases List.mem_cons.mp hy with h1 | h1
    · rw [h1]
      exact le_trans (ih (min v a) (min v a) (List.mem_cons_self _ _)) (min_le_left v a)
    · rcases List.mem_cons.mp h1 with h2 | h2
      · rw [h2]
        exact le_trans (ih (min v a) (min v a) (List.mem_cons_self _ _)) (min_le_right v a)
      · exact ih (min v a) y (List.mem_cons_of_mem _ h2)

theorem foldl_max_mem : ∀ (vs : List ℚ) (v : ℚ), vs.foldl max v ∈ v :: vs := by
  intro vs
  induction vs with
  | nil => intro v; simp
  | cons a t ih =>
    intro v
    rw [List.foldl_cons]
    rcases List.mem_cons.mp (ih (max v a)) with h1 | h1
    · rcases max_choice v a with hm | hm
      · rw [h1, hm]; exact List.mem_cons_self _ _
      · rw [h1, hm]; exact List.mem_cons_of_mem _ (List.mem_cons_self _ _)
    · exact List.mem_cons_of_mem _ (List.mem_cons_of_mem _ h1)

theorem le_foldl_max : ∀ (vs : List ℚ) (v y : ℚ), y ∈ v :: vs → y ≤ vs.foldl max v := by
  intro vs
  induction vs with
  | nil =>
    intro v y hy
    simp at hy
    simp [hy]
  | cons a t ih =>
    intro v y hy
    rw [List.foldl_cons]
    rcases List.mem_cons.mp hy with h1 | h1
    · rw [h1]
      exact le_trans (le_max_left v a) (ih (max v a) (max v a) (List.mem_cons_self _ _))
    · rcases List.mem_cons.mp h1 with h2 | h2
      · rw [h2]
        exact le_trans (le_max_right v a) (ih (max v a) (max v a) (List.mem_cons_self _ _))
      · exact ih (max v a) y (List.mem_cons_of_mem _ h2)

/-- Claim C2 counterexample: for an empty population the code returns 0.0, not
50.0. -/
theorem minmax_norm_empty_counterexample :
    minmax_norm [] 0 = 0 ∧ minmax_norm [] 0 ≠ 50 := by
  constructor <;> norm_num [minmax_norm]

/-- Claim C2 (amended): min-max normalization returns 50.0 for every member when
all engagement values of a nonempty population are equal, returns 0.0 (not
50.0) on an empty population, and on a non-degenerate population returns
exactly 0 at the population minimum and exactly 100 at the population
maximum. -/
theorem minmax_norm_correct :
    (∀ x : ℚ, minmax_norm [] x = 0)
      ∧ (∀ (v : ℚ) (vs : List ℚ) (c x : ℚ), (∀ y ∈ v :: vs, y = c) →
          minmax_norm (v :: vs) x = 50)
      ∧ (∀ (v : ℚ) (vs : List ℚ) (m M : ℚ), m ∈ v :: vs → M ∈ v :: vs →
          (∀ y ∈ v :: vs, m ≤ y ∧ y ≤ M) → m < M →
          minmax_norm (v :: vs) m = 0 ∧ minmax_norm (v :: vs) M = 100) := by
  refine ⟨fun x => rfl, ?_, ?_⟩
  · intro v vs c x hall
    have hmin : vs.foldl min v = c := hall _ (foldl_min_mem vs v)
    have hmax : vs.foldl max v = c := hall _ (foldl_max_mem vs v)
    simp only [minmax_norm, hmin, hmax, le_refl, if_true]
  · intro v vs m M hm hM hbound hlt
    have hmin : vs.foldl min v = m := by
      have h1 : m ≤ vs.foldl min v := (hbound _ (foldl_min_mem vs v)).1
      have h2 : vs.foldl min v ≤ m := foldl_min_le vs v m hm
      linarith
    have hmax : vs.foldl max v = M := by
      have h1 : vs.foldl max v ≤ M := (hbound _ (foldl_max_mem vs v)).2
      have h2 : M ≤ vs.foldl max v := le_foldl_max vs v M hM
      linarith
    have hcond : ¬ vs.foldl max v ≤ vs.foldl min v := by
      rw [hmin, hmax]; exact not_le.mpr hlt
    have hne : M - m ≠ 0 := sub_ne_zero.mpr (ne_of_gt hlt)
    constructor
    · simp only [minmax_norm, hmin, hmax]
      rw [if_neg (not_le.mpr hlt), sub_self, zero_mul, zero_div]
      norm_num
    · simp only [minmax_norm, hmin, hmax]
      rw [if_neg (not_le.mpr hlt), mul_comm, mul_div_assoc, div_self hne, mul_one]
      norm_num

/-- Claim C2 witness: the population [10, 20, 30] with member values at its
minimum and maximum normalizes to 0 and 100, and the all-equal population
[7, 7] normalizes to 50. -/
theorem minmax_norm_correct_witness :
    minmax_norm [(10 : ℚ), 20, 30] 10 = 0 ∧ minmax_norm [(10 : ℚ), 20, 30] 30 = 100
      ∧ minmax_norm [(7 : ℚ), 7] 3 = 50 := by
  have h1 := minmax_norm_correct.2.2 10 [20, 30] 10 30 (by norm_num) (by norm_num)
    (by intro y hy; simp at hy; rcases hy with rfl | rfl | rfl <;> norm_num) (by norm_num)
  exact ⟨h1.1, h1.2, minmax_norm_correct.2.1 7 [7] 7 3 (by intro y hy; simp at hy; exact hy)⟩

/-! Section: Toxicity alert engine (admin_commands.check_toxicity_and_alert,
lines 198-267)

Timestamps are integers counted in minutes, so the 2-hour anti-spam window
is 120. -/

/-- One row of `monitored_users`: a nullable threshold (SQL default 0.8)
and a nullable last-alert timestamp. -/
structure MonitoredRow where
  threshold : Option ℚ
  last_alert : Option ℤ
deriving DecidableEq

/-- Embeds `float(row["threshold"] or 0.8)`: a NULL (or 0.0, falsy in
Python) stored threshold is replaced by 0.8. -/
def eff_threshold (t : Option ℚ) : ℚ :=
  match t with
  | none => 0.8
  | some v => if v = 0 then 0.8 else v

/-- Embeds the decision part of `check_toxicity_and_alert`, up to and
including the `last_alert = NOW()` update and commit: returns the stored
row after the call and whether the alert section was reached.  Order of
checks as in the code: missing monitored row, missing toxicity value,
toxicity below threshold, anti-spam window of 120 minutes. -/
def check_alert_decision (row : Option MonitoredRow) (tox : Option ℚ) (now : ℤ) :
    Option MonitoredRow × Bool :=
  match row with
  | none => (none, false)
  | some r =>
    match tox with
    | none => (some r, false)
    | some t =>
      let threshold := eff_threshold r.threshold
      if t < threshold then (some r, false)
      else
        match r.last_alert with
        | some la =>
          if now - la < 120 then (some r, false)
          else (some { r with last_alert := some now }, true)
        | none => (some { r with last_alert := some now }, true)

/-- The delivery environment at alert time: whether the bot can resolve the
guild, and then whether a bot channel or a guild owner is available. -/
structure GuildEnv where
  channel : Option ℤ
  owner : Option ℤ
deriving DecidableEq

/-- Where a fired alert ends up being sent. -/
inductive Delivery where
  | toChannel (c : ℤ)
  | toOwner (o : ℤ)
deriving DecidableEq

/-- Embeds the delivery tail of `check_toxicity_and_alert`: unresolvable
guild sends nothing, otherwise the bot channel, otherwise the owner DM
fallback, otherwise nothing. -/
def deliver_alert (guild : Option GuildEnv) : Option Delivery :=
  match guild with
  | none => none
  | some g =>
    match g.channel with
    | some c => some (Delivery.toChannel c)
    | none =>
      match g.owner with
      | some o => some (Delivery.toOwner o)
      | none => none

/-- Embeds the whole of `check_toxicity_and_alert`: the decision (with its
committed `last_alert` update) happens first, delivery is attempted only
afterwards and only when the alert fired. -/
def check_toxicity_and_alert (row : Option MonitoredRow) (tox : Option ℚ) (now : ℤ)
    (guild : Option GuildEnv) : Option MonitoredRow × Option Delivery :=
  let dec := check_alert_decision row tox now
  (dec.1, if dec.2 then deliver_alert guild else none)

/-- Folds a sequence of `(timestamp, toxicity)` readings through the alert
decision, counting fired alerts. -/
def run_alerts (row : Option MonitoredRow) (events : List (ℤ × ℚ)) :
    Option MonitoredRow × ℕ :=
  events.foldl (fun acc ev =>
    let dec := check_alert_decision acc.1 (some ev.2) ev.1
    (dec.1, acc.2 + if dec.2 then 1 else 0)) (row, 0)

theorem check_alert_decision_fires (r : MonitoredRow) (t : ℚ) (now : ℤ)
    (h1 : eff_threshold r.threshold ≤ t)
    (h2 : r.last_alert = none ∨ ∃ la, r.last_alert = some la ∧ 120 ≤ now - la) :
    check_alert_decision (some r) (some t) now
      = (some { r with last_alert := some now }, true) := by
  simp only [check_alert_decision]
  rw [if_neg (not_lt.mpr h1)]
  rcases h2 with h2 | ⟨la, hla, hw⟩
  · simp only [h2]
  · simp only [hla]
    rw [if_neg (not_lt.mpr hw)]

/-- Claim C9 witness: a concrete store where user 2 holds an engagement row,
user 1 authors a message mentioning user 2, and only the mention count and
timestamp of user 2 move. -/
theorem process_mentioned_frame_witness :
    process_message_engagement
        (fun k => if k = 2 then some ⟨3, 4, 5, 6, 7, 8, 9, 10⟩ else none)
        none [] 1 [2] 0 0 99 2
      = some ⟨3, 5, 5, 6, 7, 8, 9, 99⟩ := by
  have h := process_mentioned_frame
    (fun k => if k = 2 then some ⟨3, 4, 5, 6, 7, 8, 9, 10⟩ else none)
    none [] 1 [2] 0 0 99 2 ⟨3, 4, 5, 6, 7, 8, 9, 10⟩
    (by decide) (by decide) (by simp)
  simpa using h

/-- Claim C6: the alert decision fires exactly when a monitored row exists, a
toxicity value is stored, it reaches the (effective) threshold, and
`last_alert` is null or at least 120 minutes old, in which case
`last_alert` becomes `now`; below-threshold readings, active cooldowns,
missing toxicity values and missing monitored rows leave the row untouched
and fire nothing.  Two 0.9-breaches 90 minutes apart on a fresh watched row
with threshold 0.8 fire exactly one alert; 180 minutes apart, exactly two. -/
theorem alert_cooldown_correct :
    (∀ (r : MonitoredRow) (t : ℚ) (now : ℤ),
        eff_threshold r.threshold ≤ t →
        (r.last_alert = none ∨ ∃ la, r.last_alert = some la ∧ 120 ≤ now - la) →
        check_alert_decision (some r) (some t) now
          = (some { r with last_alert := some now }, true))
      ∧ (∀ (r : MonitoredRow) (t : ℚ) (now : ℤ),
          t < eff_threshold r.threshold →
          check_alert_decision (some r) (some t) now = (some r, false))
      ∧ (∀ (r : MonitoredRow) (t : ℚ) (now la : ℤ),
          r.last_alert = some la → now - la < 120 →
          check_alert_decision (some r) (some t) now = (some r, false))
      ∧ (∀ (r : MonitoredRow) (now : ℤ),
          check_alert_decision (some r) none now = (some r, false))
      ∧ (∀ (tox : Option ℚ) (now : ℤ), check_alert_decision none tox now = (none, false))
      ∧ (run_alerts (some ⟨some 0.8, none⟩) [(0, 0.9), (90, 0.9)]).2 = 1
      ∧ (run_alerts (some ⟨some 0.8, none⟩) [(0, 0.9), (180, 0.9)]).2 = 2 := by
  refine ⟨check_alert_decision_fires, ?_, ?_, ?_, ?_,
    by norm_num [run_alerts, check_alert_decision, eff_threshold],
    by norm_num [run_alerts, check_alert_decision, eff_threshold]⟩
  · intro r t now hlt
    simp only [check_alert_decision]
    rw [if_pos hlt]
  · intro r t now la hla hw
    simp only [check_alert_decision]
    by_cases hlt : t < eff_threshold r.threshold
    · rw [if_pos hlt]
    · rw [if_neg hlt]
      simp only [hla]
      rw [if_pos hw]
  · intro r now
    rfl
  · intro tox now
    rfl

/-- Claim C6 witness: a fresh watched row with threshold 0.8 and a 0.9 reading at
time 0 fires and stamps `last_alert = 0`. -/
theorem alert_cooldown_correct_witness :
    check_alert_decision (some ⟨some 0.8, none⟩) (some 0.9) 0
      = (some ⟨some 0.8, some 0⟩, true) := by
  have h := alert_cooldown_correct.1 ⟨some 0.8, none⟩ 0.9 0
    (by norm_num [eff_threshold]) (Or.inl rfl)
  simpa using h

/-- Claim C10: in `check_toxicity_and_alert` the stored row (and hence the
`last_alert` cooldown stamp) is committed before delivery is attempted: the
resulting row never depends on the delivery environment, and when the
threshold and cooldown conditions hold but the guild cannot be resolved,
`last_alert` is still advanced to `now` while nothing is delivered. -/
theorem alert_state_committed_before_delivery :
    (∀ (row : Option MonitoredRow) (tox : Option ℚ) (now : ℤ)
        (g1 g2 : Option GuildEnv),
        (check_toxicity_and_alert row tox now g1).1
          = (check_toxicity_and_alert row tox now g2).1)
      ∧ (∀ (r : MonitoredRow) (t : ℚ) (now : ℤ),
          eff_threshold r.threshold ≤ t →
          (r.last_alert = none ∨ ∃ la, r.last_alert = some la ∧ 120 ≤ now - la) →
          check_toxicity_and_alert (some r) (some t) now none
            = (some { r with last_alert := some now }, none)) := by
  constructor
  · intro row tox now g1 g2
    rfl
  · intro r t now h1 h2
    unfold check_toxicity_and_alert
    rw [check_alert_decision_fires r t now h1 h2]
    rfl

/-- Claim C10 witness: conditions hold but the guild is unresolvable; the
cooldown is still consumed and nothing is delivered. -/
theorem alert_state_committed_before_delivery_witness :
    check_toxicity_and_alert (some ⟨some 0.8, none⟩) (some 0.9) 0 none
      = (some ⟨some 0.8, some 0⟩, none) := by
  have h := alert_state_committed_before_delivery.2 ⟨some 0.8, none⟩ 0.9 0
    (by norm_num [eff_threshold]) (Or.inl rfl)
  simpa using h

end InsightCord

namespace InsightCord

/-! Section: Content-signal aggregate and rebuild
(ai_analysis.analyze_and_update / rebuild_ai_for_user, lines 291-373)

The per-message text analysis (`analyze_text`) is an arbitrary deterministic
function of the message content, abstracted as a parameter `f`; the state
update and replay structure follow the source. -/

/-- The result of `analyze_text` on one message: sentiment label, toxicity
score, topic hit counters and communication style. -/
structure SignalData where
  sent_label : String
  tox : ℚ
  topics : List (String × ℕ)
  style : String

/-- One `UserAIAnalysis` row: the four content-signal fields. -/
structure AIState where
  toxicity_level : ℚ
  dominant_sentiment : String
  topics_of_interest : List (String × ℤ)
  communication_style : Option String
deriving DecidableEq

/-- The defaults of `get_or_create_ai`, also the reset values used by
`rebuild_ai_for_user`. -/
def default_ai_state : AIState := ⟨0, "neutral", [], none⟩

/-- Dictionary read `old_topics.get(k, 0)` on the topics mapping, modelled
as an association list. -/
def topics_get (l : List (String × ℤ)) (k : String) : ℤ :=
  match l.find? (fun kv => kv.1 == k) with
  | some kv => kv.2
  | none => 0

/-- Dictionary write `old_topics[k] = v`: update in place when the key
exists, append otherwise. -/
def topics_set (l : List (String × ℤ)) (k : String) (v : ℤ) : List (String × ℤ) :=
  if l.any (fun kv => kv.1 == k) then
    l.map (fun kv => if kv.1 == k then (kv.1, v) else kv)
  else l ++ [(k, v)]

/-- Embeds the topics counter fusion of `analyze_and_update`:
`old_topics[k] = old_topics.get(k, 0) + v` for each analysed topic. -/
def merge_topics (old : List (String × ℤ)) (add : List (String × ℕ)) : List (String × ℤ) :=
  add.foldl (fun acc kv => topics_set acc kv.1 (topics_get acc kv.1 + kv.2)) old

/-- Embeds the state update of `analyze_and_update`: toxicity fused
asymmetrically, dominant sentiment and style overwritten with the latest
values, topic counters merged. -/
def update_signals (st : AIState) (d : SignalData) : AIState :=
  { toxicity_level := update_toxicity st.toxicity_level d.tox,
    dominant_sentiment := d.sent_label,
    topics_of_interest := merge_topics st.topics_of_interest d.topics,
    communication_style := some d.style }

/-- A stored message: timestamp and content. -/
structure Msg where
  timestamp : ℤ
  content : String

/-- Length of `content.strip()`: characters remaining after removing
leading and trailing whitespace, computed on the character list. -/
def strip_length (s : String) : ℕ :=
  ((s.toList.dropWhile Char.isWhitespace).reverse.dropWhile Char.isWhitespace).length

/-- Embeds `analyze_and_update` for one message under analyzer `f`:
messages whose stripped content is shorter than 2 characters are skipped
(the `not content` guard is subsumed, an empty string strips to length 0). -/
def analyze_and_update_state (f : String → SignalData) (st : AIState) (content : String) :
    AIState :=
  if strip_length content < 2 then st else update_signals st (f content)

/-- Embeds `rebuild_ai_for_user` together with the session behaviour its
body triggers.  The enclosing session loads the committed aggregate `db0`
and assigns the four default values to it; with `autoflush=False`
(`db.py`, `SessionLocal`) those resets stay unflushed while each replayed
message runs `analyze_and_update` in a fresh session of its own, and every
such session reads the latest committed row and commits its update — so
the replay folds the history from `db0`, not from the defaults.  The final
`session.commit()` of the enclosing session then flushes the reset:
SQLAlchemy writes only the columns whose assigned value differs from the
value loaded at the start, so each field whose pre-call value was not
already its default is reverted to the default, while the other fields
keep the replayed value.  Models a run on a guild, user and aggregate row
that already exist in committed state. -/
def rebuild_ai_for_user (f : String → SignalData) (msgs : List Msg) (db0 : AIState) :
    AIState :=
  let replayed := (msgs.mergeSort (fun a b => decide (a.timestamp ≤ b.timestamp))).foldl
    (fun s m => analyze_and_update_state f s m.content) db0
  { toxicity_level :=
      if db0.toxicity_level = 0 then replayed.toxicity_level else 0,
    dominant_sentiment :=
      if db0.dominant_sentiment = "neutral" then replayed.dominant_sentiment else "neutral",
    topics_of_interest :=
      if db0.topics_of_interest = [] then replayed.topics_of_interest else [],
    communication_style :=
      if db0.communication_style = none then replayed.communication_style else none }

/-- The rebuild as the specification words it: reset all four fields to
their defaults, then replay every historical message through
`updateSignals` in ascending timestamp order. -/
def spec_rebuild_from_history (f : String → SignalData) (msgs : List Msg) : AIState :=
  (msgs.mergeSort (fun a b => decide (a.timestamp ≤ b.timestamp))).foldl
    (fun s m => analyze_and_update_state f s m.content) default_ai_state

/-! Section: Rank tiers (rank_system.py, lines 18-38 and 147-157) -/

/-- One entry of the `TIERS` configuration table. -/
structure Tier where
  name : String
  min_score : ℚ
  color : ℕ
  emoji : String
deriving DecidableEq

/-- The tier table, ordered from highest to lowest threshold. -/
def TIERS : List Tier :=
  [⟨"Mythic", 90, 0x9b59b6, "🌌"⟩,
   ⟨"Diamond", 80, 0x00d2ff, "💎"⟩,
   ⟨"Platinum", 70, 0x7fdbff, "🔷"⟩,
   ⟨"Gold", 60, 0xf1c40f, "🥇"⟩,
   ⟨"Silver", 45, 0xbdc3c7, "🥈"⟩,
   ⟨"Bronze", 0, 0xcd7f32, "🥉"⟩]

/-- Embeds `pick_tier`: the first tier in `TIERS` whose threshold the score
meets, with the fallback `TIERS[-1]`, which is the Bronze entry. -/
def pick_tier (score : ℚ) : Tier :=
  (TIERS.find? (fun t => decide (t.min_score ≤ score))).getD ⟨"Bronze", 0, 0xcd7f32, "🥉"⟩

/-- Embeds the next-tier loop of `cmd_rank`: iterate over `TIERS` keeping
the last tier whose threshold is strictly above the score; `none` means the
max-rank message is shown. -/
def next_tier (score : ℚ) : Option Tier :=
  TIERS.foldl (fun acc t => if score < t.min_score then some t else acc) none

theorem pick_tier_eq (score : ℚ) :
    pick_tier score =
      if 90 ≤ score then ⟨"Mythic", 90, 0x9b59b6, "🌌"⟩
      else if 80 ≤ score then ⟨"Diamond", 80, 0x00d2ff, "💎"⟩
      else if 70 ≤ score then ⟨"Platinum", 70, 0x7fdbff, "🔷"⟩
      else if 60 ≤ score then ⟨"Gold", 60, 0xf1c40f, "🥇"⟩
      else if 45 ≤ score then ⟨"Silver", 45, 0xbdc3c7, "🥈"⟩
      else ⟨"Bronze", 0, 0xcd7f32, "🥉"⟩ := by
  by_cases h90 : (90 : ℚ) ≤ score
  · simp [pick_tier, TIERS, h90]
  by_cases h80 : (80 : ℚ) ≤ score
  · simp [pick_tier, TIERS, h80, h90]
  by_cases h70 : (70 : ℚ) ≤ score
  · simp [pick_tier, TIERS, h70, h80, h90]
  by_cases h60 : (60 : ℚ) ≤ score
  · simp [pick_tier, TIERS, h60, h70, h80, h90]
  by_cases h45 : (45 : ℚ) ≤ score
  · simp [pick_tier, TIERS, h45, h60, h70, h80, h90]
  by_cases h0 : (0 : ℚ) ≤ score
  · simp [pick_tier, TIERS, h0, h45, h60, h70, h80, h90]
  · simp [pick_tier, TIERS, h0, h45, h60, h70, h80, h90]

theorem next_tier_eq (score : ℚ) :
    next_tier score =
      if score < 0 then some ⟨"Bronze", 0, 0xcd7f32, "🥉"⟩
      else if score < 45 then some ⟨"Silver", 45, 0xbdc3c7, "🥈"⟩
      else if score < 60 then some ⟨"Gold", 60, 0xf1c40f, "🥇"⟩
      else if score < 70 then some ⟨"Platinum", 70, 0x7fdbff, "🔷"⟩
      else if score < 80 then some ⟨"Diamond", 80, 0x00d2ff, "💎"⟩
      else if score < 90 then some ⟨"Mythic", 90, 0x9b59b6, "🌌"⟩
      else none := rfl

/-- Claim C8: for every nonnegative score, `pick_tier` returns the highest tier
of `TIERS` whose threshold the score meets or exceeds, and the next-tier
hint of `cmd_rank` is the lowest-threshold tier strictly above the score,
with `none` (the max-rank message) exactly when the score is in the top
tier (90 or more). -/
theorem tier_assignment_correct (score : ℚ) (hs : 0 ≤ score) :
    (pick_tier score ∈ TIERS
      ∧ (pick_tier score).min_score ≤ score
      ∧ ∀ t ∈ TIERS, t.min_score ≤ score → t.min_score ≤ (pick_tier score).min_score)
      ∧ (next_tier score = none ↔ 90 ≤ score)
      ∧ (∀ t : Tier, next_tier score = some t →
          t ∈ TIERS ∧ score < t.min_score
            ∧ ∀ u ∈ TIERS, score < u.min_score → t.min_score ≤ u.min_score) := by
  rcases lt_or_le score 45 with hb | hb
  · have e1 : pick_tier score = ⟨"Bronze", 0, 0xcd7f32, "🥉"⟩ := by
      rw [pick_tier_eq, if_neg (by linarith), if_neg (by linarith), if_neg (by linarith),
        if_neg (by linarith), if_neg (by linarith)]
    have e2 : next_tier score = some ⟨"Silver", 45, 0xbdc3c7, "🥈"⟩ := by
      rw [next_tier_eq, if_neg (not_lt.mpr hs), if_pos hb]
    refine ⟨⟨?_, ?_, ?_⟩, ?_, ?_⟩
    · rw [e1]; simp [TIERS]
    · rw [e1]; exact hs
    · intro t ht hle; rw [e1]; fin_cases ht <;> simp_all <;> linarith
    · rw [e2]
      constructor
      · intro h; simp at h
      · intro h; exact absurd h (by linarith)
    · intro t h
      rw [e2] at h
      have ht := Option.some.inj h
      subst ht
      refine ⟨by simp [TIERS], hb, ?_⟩
      intro u hu hlt; fin_cases hu <;> simp_all <;> linarith
  rcases lt_or_le score 60 with hb2 | hb2
  · have e1 : pick_tier score = ⟨"Silver", 45, 0xbdc3c7, "🥈"⟩ := by
      rw [pick_tier_eq, if_neg (by linarith), if_neg (by linarith), if_neg (by linarith),
        if_neg (by linarith), if_pos hb]
    have e2 : next_tier score = some ⟨"Gold", 60, 0xf1c40f, "🥇"⟩ := by
      rw [next_tier_eq, if_neg (by linarith), if_neg (not_lt.mpr hb), if_pos hb2]
    refine ⟨⟨?_, ?_, ?_⟩, ?_, ?_⟩
    · rw [e1]; simp [TIERS]
    · rw [e1]; exact hb
    · intro t ht hle; rw [e1]; fin_cases ht <;> simp_all <;> linarith
    · rw [e2]
      constructor
      · intro h; simp at h
      · intro h; exact absurd h (by linarith)
    · intro t h
      rw [e2] at h
      have ht := Option.some.inj h
      subst ht
      refine ⟨by simp [TIERS], hb2, ?_⟩
      intro u hu hlt; fin_cases hu <;> simp_all <;> linarith
  rcases lt_or_le score 70 with hb3 | hb3
  · have e1 : pick_tier score = ⟨"Gold", 60, 0xf1c40f, "🥇"⟩ := by
      rw [pick_tier_eq, if_neg (by linarith), if_neg (by linarith), if_neg (by linarith),
        if_pos hb2]
    have e2 : next_tier score = some ⟨"Platinum", 70, 0x7fdbff, "🔷"⟩ := by
      rw [next_tier_eq, if_neg (by linarith), if_neg (by linarith), if_neg (not_lt.mpr hb2),
        if_pos hb3]
    refine ⟨⟨?_, ?_, ?_⟩, ?_, ?_⟩
    · rw [e1]; simp [TIERS]
    · rw [e1]; exact hb2
    · intro t ht hle; rw [e1]; fin_cases ht <;> simp_all <;> linarith
    · rw [e2]
      constructor
      · intro h; simp at h
      · intro h; exact absurd h (by linarith)
    · intro t h
      rw [e2] at h
      have ht := Option.some.inj h
      subst ht
      refine ⟨by simp [TIERS], hb3, ?_⟩
      intro u hu hlt; fin_cases hu <;> simp_all <;> linarith
  rcases lt_or_le score 80 with hb4 | hb4
  · have e1 : pick_tier score = ⟨"Platinum", 70, 0x7fdbff, "🔷"⟩ := by
      rw [pick_tier_eq, if_neg (by linarith), if_neg (by linarith), if_pos hb3]
    have e2 : next_tier score = some ⟨"Diamond", 80, 0x00d2ff, "💎"⟩ := by
      rw [next_tier_eq, if_neg (by linarith), if_neg (by linarith), if_neg (by linarith),
        if_neg (not_lt.mpr hb3), if_pos hb4]
    refine ⟨⟨?_, ?_, ?_⟩, ?_, ?_⟩
    · rw [e1]; simp [TIERS]
    · rw [e1]; exact hb3
    · intro t ht hle; rw [e1]; fin_cases ht <;> simp_all <;> linarith
    · rw [e2]
      constructor
      · intro h; simp at h
      · intro h; exact absurd h (by linarith)
    · intro t h
      rw [e2] at h
      have ht := Option.some.inj h
      subst ht
      refine ⟨by simp [TIERS], hb4, ?_⟩
      intro u hu hlt; fin_cases hu <;> simp_all <;> linarith
  rcases lt_or_le score 90 with hb5 | hb5
  · have e1 : pick_tier score = ⟨"Diamond", 80, 0x00d2ff, "💎"⟩ := by
      rw [pick_tier_eq, if_neg (by linarith), if_pos hb4]
    have e2 : next_tier score = some ⟨"Mythic", 90, 0x9b59b6, "🌌"⟩ := by
      rw [next_tier_eq, if_neg (by linarith), if_neg (by linarith), if_neg (by linarith),
        if_neg (by linarith), if_neg (not_lt.mpr hb4), if_pos hb5]
    refine ⟨⟨?_, ?_, ?_⟩, ?_, ?_⟩
    · rw [e1]; simp [TIERS]
    · rw [e1]; exact hb4
    · intro t ht hle; rw [e1]; fin_cases ht <;> simp_all <;> linarith
    · rw [e2]
      constructor
      · intro h; simp at h
      · intro h; exact absurd h (by linarith)
    · intro t h
      rw [e2] at h
      have ht := Option.some.inj h
      subst ht
      refine ⟨by simp [TIERS], hb5, ?_⟩
      intro u hu hlt; fin_cases hu <;> simp_all <;> linarith
  · have e1 : pick_tier score = ⟨"Mythic", 90, 0x9b59b6, "🌌"⟩ := by
      rw [pick_tier_eq, if_pos hb5]
    have e2 : next_tier score = none := by
      rw [next_tier_eq, if_neg (by linarith), if_neg (by linarith), if_neg (by linarith),
        if_neg (by linarith), if_neg (by linarith), if_neg (not_lt.mpr hb5)]
    refine ⟨⟨?_, ?_, ?_⟩, ?_, ?_⟩
    · rw [e1]; simp [TIERS]
    · rw [e1]; exact hb5
    · intro t ht hle; rw [e1]; fin_cases ht <;> simp_all <;> linarith
    · rw [e2]
      exact ⟨fun _ => hb5, fun _ => rfl⟩
    · intro t h
      rw [e2] at h
      exact absurd h (by simp)

/-- Claim C8 witness: the concrete score 47 is nonnegative; it lands in Silver,
the hint points at Gold, and both characterizations hold. -/
theorem tier_assignment_correct_witness :
    (0 : ℚ) ≤ 47
      ∧ ((pick_tier 47 ∈ TIERS
          ∧ (pick_tier 47).min_score ≤ 47
          ∧ ∀ t ∈ TIERS, t.min_score ≤ 47 → t.min_score ≤ (pick_tier 47).min_score)
        ∧ (next_tier 47 = none ↔ 90 ≤ (47 : ℚ))
        ∧ (∀ t : Tier, next_tier 47 = some t →
            t ∈ TIERS ∧ (47 : ℚ) < t.min_score
              ∧ ∀ u ∈ TIERS, (47 : ℚ) < u.min_score → t.min_score ≤ u.min_score)) :=
  ⟨by norm_num, tier_assignment_correct 47 (by norm_num)⟩

/-- Claim C4 (code bug): on the failing input — an analyzer classifying
every message as positive with toxicity 1, a one-message history
("hello" at timestamp 0), and a committed aggregate whose toxicity 1 is
not the default — the code ends with toxicity reverted to 0, not the
replayed value: its final commit overwrites every replayed field whose
pre-call value was not already the default.  The result therefore differs
from the reset-then-replay state the claim describes, and a second run
produces yet another state, refuting idempotence on the code as written. -/
theorem rebuild_ai_session_bug :
    rebuild_ai_for_user (fun _ => ⟨"positive", 1, [], "concise"⟩) [⟨0, "hello"⟩]
        ⟨1, "neutral", [], none⟩
      = ⟨0, "positive", [], some "concise"⟩
    ∧ spec_rebuild_from_history (fun _ => ⟨"positive", 1, [], "concise"⟩) [⟨0, "hello"⟩]
      = ⟨1, "positive", [], some "concise"⟩
    ∧ rebuild_ai_for_user (fun _ => ⟨"positive", 1, [], "concise"⟩) [⟨0, "hello"⟩]
        ⟨1, "neutral", [], none⟩
      ≠ spec_rebuild_from_history (fun _ => ⟨"positive", 1, [], "concise"⟩) [⟨0, "hello"⟩]
    ∧ rebuild_ai_for_user (fun _ => ⟨"positive", 1, [], "concise"⟩) [⟨0, "hello"⟩]
        (rebuild_ai_for_user (fun _ => ⟨"positive", 1, [], "concise"⟩) [⟨0, "hello"⟩]
          ⟨1, "neutral", [], none⟩)
      = ⟨1, "neutral", [], none⟩
    ∧ rebuild_ai_for_user (fun _ => ⟨"positive", 1, [], "concise"⟩) [⟨0, "hello"⟩]
        (rebuild_ai_for_user (fun _ => ⟨"positive", 1, [], "concise"⟩) [⟨0, "hello"⟩]
          ⟨1, "neutral", [], none⟩)
      ≠ rebuild_ai_for_user (fun _ => ⟨"positive", 1, [], "concise"⟩) [⟨0, "hello"⟩]
          ⟨1, "neutral", [], none⟩ := by
  have h1 : rebuild_ai_for_user (fun _ => ⟨"positive", 1, [], "concise"⟩) [⟨0, "hello"⟩]
      ⟨1, "neutral", [], none⟩
      = ⟨0, "positive", [], some "concise"⟩ := by
    norm_num [rebuild_ai_for_user, analyze_and_update_state, update_signals,
      update_toxicity, merge_topics, strip_length]
    decide
  have h2 : spec_rebuild_from_history (fun _ => ⟨"positive", 1, [], "concise"⟩)
      [⟨0, "hello"⟩]
      = ⟨1, "positive", [], some "concise"⟩ := by
    norm_num [spec_rebuild_from_history, default_ai_state, analyze_and_update_state,
      update_signals, update_toxicity, merge_topics, strip_length]
    decide
  have h3 : rebuild_ai_for_user (fun _ => ⟨"positive", 1, [], "concise"⟩) [⟨0, "hello"⟩]
      ⟨0, "positive", [], some "concise"⟩
      = ⟨1, "neutral", [], none⟩ := by
    norm_num [rebuild_ai_for_user, analyze_and_update_state, update_signals,
      update_toxicity, merge_topics, strip_length]
    decide
  refine ⟨h1, h2, ?_, ?_, ?_⟩
  · rw [h1, h2]; decide
  · rw [h1]; exact h3
  · rw [h1, h3]; decide

end InsightCord
